import Mathlib

/-!
Shallow embedding of the stock-dashboard data pipeline of src/app.py:
fetch, field selection, resampling, normalization, moving averages and
the chart series.  A pandas missing value (NaN) is `none`; numeric cells
are exact rationals; row dates are serial day numbers (days since
1970-01-01, a Thursday).
-/

namespace StockDash

/-- A table cell: `none` models a pandas missing value (NaN). -/
abbrev Cell := Option ℚ

/-- A single-level price table (pandas DataFrame): date-indexed rows,
one named column per symbol.  In a well-formed table every column list
has the same length as `index`. -/
structure Table where
  index : List Nat
  cols : List (String × List Cell)
  deriving DecidableEq

/-- Well-formedness: every column has one cell per row. -/
def Table.WF (t : Table) : Prop :=
  ∀ c ∈ t.cols, c.2.length = t.index.length

/-- The column names of a table (pandas `df.columns`). -/
def Table.colNames (t : Table) : List String := t.cols.map (fun c => c.1)

/-- pandas `df.empty`: true when either axis has length zero. -/
def Table.isEmpty (t : Table) : Bool := t.index.isEmpty || t.cols.isEmpty

/-- The two-level (field, symbol) OHLCV table returned by the fetch
boundary (`yf.download`, line 12): columns keyed by field and symbol. -/
structure RawTable where
  index : List Nat
  cols : List ((String × String) × List Cell)
  deriving DecidableEq

/-- pandas `df.empty` on the raw table (line 48). -/
def RawTable.isEmpty (r : RawTable) : Bool := r.index.isEmpty || r.cols.isEmpty

/-- The level-0 values of the raw column MultiIndex
(`df_full.columns.levels[0]`, line 52). -/
def RawTable.fieldNames (r : RawTable) : List String := r.cols.map (fun c => c.1.1)

/-- Field selection (`df_full[price_field]`, line 56): keep the columns
of the chosen field, named by symbol, in stored order. -/
def selectField (raw : RawTable) (field : String) : Table :=
  { index := raw.index
  , cols := raw.cols.filterMap
      (fun c => if c.1.1 = field then some (c.1.2, c.2) else none) }

/-- First non-missing value of a column (`s = col.dropna(); s.iloc[0]`,
lines 73-74). -/
def firstValid : List Cell → Cell
  | [] => none
  | some v :: _ => some v
  | none :: l => firstValid l

/-- Last non-missing value of a list of cells (pandas `last()` with its
default skipna behaviour, lines 61 and 63). -/
def lastValid : List Cell → Cell
  | [] => none
  | x :: l => match lastValid l with | some v => some v | none => x

/-- Calendar week bucket of serial day `d`: pandas frequency "W" means
weeks ending Sunday; day 0 (1970-01-01) is a Thursday, so days
`7k-3 .. 7k+3` (Monday through Sunday) share bucket `k`. -/
def weekBucket (d : Nat) : Nat := (d + 3) / 7

/-- Calendar month bucket (Gregorian `year*12 + month-1`) of serial day
`d`, the grouping used by pandas frequency "M".  Standard
civil-from-days date conversion. -/
def monthBucket (d : Nat) : Nat :=
  let z := d + 719468
  let era := z / 146097
  let doe := z % 146097
  let yoe := (doe - doe / 1460 + doe / 36524 - doe / 146096) / 365
  let doy := doe - (365 * yoe + yoe / 4 - yoe / 100)
  let mp := (5 * doy + 2) / 153
  let m := if mp < 10 then mp + 3 else mp - 9
  let y := era * 400 + yoe + (if m ≤ 2 then 1 else 0)
  y * 12 + (m - 1)

/-- The cells of column `col` whose row date falls in bucket `b`. -/
def bucketCells (bucket : Nat → Nat) (idx : List Nat) (col : List Cell) (b : Nat) :
    List Cell :=
  ((idx.zip col).filter (fun p => bucket p.1 == b)).map (fun p => p.2)

/-- Smallest bucket hit by the index (0 for an empty index). -/
def bucketLo (bucket : Nat → Nat) (idx : List Nat) : Nat :=
  match idx.map bucket with
  | [] => 0
  | b :: bs => bs.foldl min b

/-- Largest bucket hit by the index (0 for an empty index). -/
def bucketHi (bucket : Nat → Nat) (idx : List Nat) : Nat :=
  match idx.map bucket with
  | [] => 0
  | b :: bs => bs.foldl max b

/-- pandas `df.resample(freq).last()` (lines 61 and 63): one row per
calendar bucket from the earliest to the latest bucket of the index —
buckets with no rows are kept and yield missing cells — and each cell is
the last non-missing value of its column within the bucket.  Row labels
here are bucket identifiers (pandas labels rows by period-end dates;
only row order and count are relevant downstream). -/
def resampleBy (bucket : Nat → Nat) (t : Table) : Table :=
  if t.index.isEmpty then
    { index := [], cols := t.cols.map (fun c => (c.1, ([] : List Cell))) }
  else
    let lo := bucketLo bucket t.index
    let bins := List.range' lo (bucketHi bucket t.index + 1 - lo)
    { index := bins
    , cols := t.cols.map
        (fun c => (c.1, bins.map (fun b => lastValid (bucketCells bucket t.index c.2 b)))) }

/-- The resampling frequency selected at line 30. -/
inductive Freq
  | daily
  | weekly
  | monthly
  deriving DecidableEq

/-- The calendar bucket function of a frequency (identity for daily,
where no bucketing happens). -/
def bucketOf : Freq → (Nat → Nat)
  | Freq.daily => id
  | Freq.weekly => weekBucket
  | Freq.monthly => monthBucket

/-- Lines 58-63: identity for daily, bucket-and-take-last otherwise. -/
def resample (fq : Freq) (t : Table) : Table :=
  match fq with
  | Freq.daily => t
  | Freq.weekly => resampleBy weekBucket t
  | Freq.monthly => resampleBy monthBucket t

/-- `df_resampled.dropna(axis=1, how="all")` (line 65): drop the columns
that hold no value at all. -/
def dropAllMissing (t : Table) : Table :=
  { index := t.index, cols := t.cols.filter (fun c => c.2.any (fun x => x.isSome)) }

/-- Normalization of one column (lines 72-74): divide by the first
non-missing value and scale to 100; a column with no valid value or a
zero first valid value becomes entirely missing. -/
def normalizeCol (col : List Cell) : List Cell :=
  match firstValid col with
  | some v0 =>
      if v0 ≠ 0 then col.map (fun x => x.map (fun v => v / v0 * 100))
      else col.map (fun _ => none)
  | none => col.map (fun _ => none)

/-- Lines 70-77: normalize every column when enabled, identity when not. -/
def normalize (enabled : Bool) (t : Table) : Table :=
  if enabled then
    { index := t.index, cols := t.cols.map (fun c => (c.1, normalizeCol c.2)) }
  else t

/-- pandas `col.rolling(w).mean()` with its default `min_periods = w`
(lines 89 and 94): at row `i` the mean of cells `i-w+1 .. i` when
`i ≥ w-1` and all `w` of them are present, otherwise missing. -/
def rollingMean (w : Nat) (col : List Cell) : List Cell :=
  (List.range col.length).map (fun i =>
    if i + 1 < w then none
    else
      let win := (col.take (i + 1)).drop (i + 1 - w)
      if win.all (fun x => x.isSome) then some ((win.filterMap id).sum / (w : ℚ))
      else none)

/-- The moving-average overlay traces of one enabled invocation
(lines 88-91 and 93-96): one series per column, named
`"{symbol} MA{window}"`. -/
def maTraces (tbl : Table) (w : Nat) : List (String × List Cell) :=
  tbl.cols.map (fun c => (c.1 ++ " MA" ++ toString w, rollingMean w c.2))

/-- The named line series handed to the chart (lines 83-96): base traces
in column order, then the MA1 overlays when enabled, then the MA2
overlays when enabled. -/
def chartSeries (tbl : Table) (ma1e : Bool) (ma1w : Nat) (ma2e : Bool) (ma2w : Nat) :
    List (String × List Cell) :=
  tbl.cols
    ++ (if ma1e then maTraces tbl ma1w else [])
    ++ (if ma2e then maTraces tbl ma2w else [])

/-- The configuration tuple read from the sidebar (lines 16-40), with
`tickers` already parsed to the uppercase symbol list of line 18. -/
structure Config where
  tickers : List String
  startDate : Nat
  endDate : Nat
  priceField : String
  freq : Freq
  normalizeOn : Bool
  ma1Enabled : Bool
  ma1Window : Nat
  ma2Enabled : Bool
  ma2Window : Nat
  deriving DecidableEq

/-- How one run of the script ends. -/
inductive Outcome
  | invalidConfig
  | emptyData
  | fieldUnavailable
  | noDataAfterResample
  | ok (toPlot : Table) (dropped : List String)
  deriving DecidableEq

def msgInvalidConfig : String := "❌ Please enter at least one ticker symbol."

def msgEmptyData : String := "⚠️ No data returned. Check symbols or date range."

def msgNoDataAfterResample : String := "❌ After resampling, no data remains."

/-- The user-visible error message of a halting outcome (the source
message of `fieldUnavailable` additionally interpolates the quoted field
name, line 53). -/
def outcomeMessage : Outcome → Option String
  | Outcome.invalidConfig => some msgInvalidConfig
  | Outcome.emptyData => some msgEmptyData
  | Outcome.fieldUnavailable => some ("⚠️ field not available.")
  | Outcome.noDataAfterResample => some msgNoDataAfterResample
  | Outcome.ok _ _ => none

/-- One run of the script: the outcome, whether the start/end date
warning of line 27 was shown (it does not stop the run), and how many
times the fetch boundary was invoked. -/
structure RunResult where
  dateWarning : Bool
  fetchCount : Nat
  outcome : Outcome
  deriving DecidableEq

/-- The PriceTable of the run (`df_price`, line 56). -/
def pricedTable (fetch : List String → Nat → Nat → RawTable) (cfg : Config) : Table :=
  selectField (fetch cfg.tickers cfg.startDate cfg.endDate) cfg.priceField

/-- The ResampledTable of the run after dropping all-missing columns
(`df_resampled`, lines 58-65). -/
def resampledTable (fetch : List String → Nat → Nat → RawTable) (cfg : Config) : Table :=
  dropAllMissing (resample cfg.freq (pricedTable fetch cfg))

/-- One full run of the script (lines 26-81): the date check of line 26
only emits a warning; an empty ticker list stops before the fetch
(lines 42-44); then the fetch (line 47), the empty check (48-50), the
field check (52-54), field selection (56), resampling (58-63), the
all-missing column drop (65) with its empty check (66-68), optional
normalization (70-77) and the dropped-symbols list (79-81). -/
def runPipeline (fetch : List String → Nat → Nat → RawTable) (cfg : Config) :
    RunResult :=
  let dateWarning := decide (cfg.endDate ≤ cfg.startDate)
  if cfg.tickers = [] then
    { dateWarning := dateWarning, fetchCount := 0, outcome := Outcome.invalidConfig }
  else
    let raw := fetch cfg.tickers cfg.startDate cfg.endDate
    if raw.isEmpty then
      { dateWarning := dateWarning, fetchCount := 1, outcome := Outcome.emptyData }
    else if cfg.priceField ∈ raw.fieldNames then
      let dfResampled := resampledTable fetch cfg
      if dfResampled.isEmpty then
        { dateWarning := dateWarning, fetchCount := 1
        , outcome := Outcome.noDataAfterResample }
      else
        let toPlot := normalize cfg.normalizeOn dfResampled
        { dateWarning := dateWarning, fetchCount := 1
        , outcome := Outcome.ok toPlot
            (cfg.tickers.filter (fun tk => ! decide (tk ∈ toPlot.colNames))) }
    else
      { dateWarning := dateWarning, fetchCount := 1
      , outcome := Outcome.fieldUnavailable }

/-- A constant fetch boundary: a backing source that returns the same
raw table for every query. -/
def fetchConst (r : RawTable) : List String → Nat → Nat → RawTable :=
  fun _ _ _ => r

/-- Sample one-row raw table with a Close column for symbol A. -/
def rawSampleA : RawTable := { index := [0], cols := [(("Close", "A"), [some 1])] }

/-- The empty raw table (what the provider yields for unknown symbols). -/
def rawEmpty : RawTable := { index := [], cols := [] }

/-- Sample configuration: one symbol, start date equal to the end date,
daily frequency, no normalization, no moving averages. -/
def cfgLateStart : Config :=
  { tickers := ["A"], startDate := 5, endDate := 5, priceField := "Close"
  , freq := Freq.daily, normalizeOn := false, ma1Enabled := false, ma1Window := 20
  , ma2Enabled := false, ma2Window := 50 }

/-- Sample configuration with an empty symbol list. -/
def cfgEmpty : Config := { cfgLateStart with tickers := [] }

/-- Sample raw table: symbol A has one observation, symbol B none. -/
def rawTwoCols : RawTable :=
  { index := [0]
  , cols := [(("Close", "A"), [some 1]), (("Close", "B"), [none])] }

/-- Sample configuration requesting A and B, daily, no normalization. -/
def cfgTwoCols : Config :=
  { tickers := ["A", "B"], startDate := 0, endDate := 1, priceField := "Close"
  , freq := Freq.daily, normalizeOn := false, ma1Enabled := false, ma1Window := 20
  , ma2Enabled := false, ma2Window := 50 }

/-- Sample raw table where the first valid value of symbol A is zero. -/
def rawZeroFirst : RawTable :=
  { index := [0, 1]
  , cols := [(("Close", "A"), [some 0, some 5]), (("Close", "B"), [some 1, some 2])] }

/-- Sample configuration requesting A and B with normalization on. -/
def cfgNormalize : Config :=
  { tickers := ["A", "B"], startDate := 0, endDate := 2, priceField := "Close"
  , freq := Freq.daily, normalizeOn := true, ma1Enabled := false, ma1Window := 20
  , ma2Enabled := false, ma2Window := 50 }

/-- The plotted table of the `cfgNormalize` run. -/
def tblNormExample : Table :=
  normalize true (resampledTable (fetchConst rawZeroFirst) cfgNormalize)

/-- The dropped-symbol list of the `cfgNormalize` run. -/
def droppedNormExample : List String :=
  cfgNormalize.tickers.filter (fun tk => ! decide (tk ∈ tblNormExample.colNames))

/-! ### Helper lemmas -/

theorem firstValid_map (f : ℚ → ℚ) (col : List Cell) :
    firstValid (col.map (Option.map f)) = Option.map f (firstValid col) := by
  induction col with
  | nil => rfl
  | cons x l ih =>
    cases x with
    | none => simpa [firstValid] using ih
    | some v => rfl

theorem firstValid_replicate_none (col : List Cell) :
    firstValid (col.map (fun _ => none)) = none := by
  induction col with
  | nil => rfl
  | cons x l ih => simpa [firstValid] using ih

theorem resampleBy_spec (bucket : Nat → Nat) (t : Table) (hne : t.index ≠ []) :
    (resampleBy bucket t).index.length
        = bucketHi bucket t.index + 1 - bucketLo bucket t.index ∧
    ∀ nm col, (nm, col) ∈ t.cols →
      ∃ rcol, (nm, rcol) ∈ (resampleBy bucket t).cols ∧
        rcol.length = (resampleBy bucket t).index.length ∧
        ∀ k, k < rcol.length →
          rcol[k]? = some (lastValid (bucketCells bucket t.index col
            (bucketLo bucket t.index + k))) := by
  have hemp : t.index.isEmpty = false := by
    cases h : t.index with
    | nil => exact absurd h hne
    | cons a l => rfl
  constructor
  · simp [resampleBy, hemp]
  · intro nm col hmem
    refine ⟨(List.range' (bucketLo bucket t.index)
        (bucketHi bucket t.index + 1 - bucketLo bucket t.index)).map
        (fun b => lastValid (bucketCells bucket t.index col b)), ?_, ?_, ?_⟩
    · simp only [resampleBy, hemp, Bool.false_eq_true, if_false]
      exact List.mem_map_of_mem
        (fun c => (c.1, (List.range' (bucketLo bucket t.index)
          (bucketHi bucket t.index + 1 - bucketLo bucket t.index)).map
          (fun b => lastValid (bucketCells bucket t.index c.2 b)))) hmem
    · simp [resampleBy, hemp]
    · intro k hk
      simp only [List.length_map, List.length_range'] at hk
      rw [List.getElem?_map, List.getElem?_range' _ _ hk]
      simp

theorem lastValid_cons (x : Cell) (l : List Cell) :
    lastValid (x :: l) = match lastValid l with | some v => some v | none => x := rfl

theorem lastValid_mem (l : List Cell) (v : ℚ) (h : lastValid l = some v) :
    some v ∈ l := by
  induction l with
  | nil => simp [lastValid] at h
  | cons x l ih =>
    rw [lastValid_cons] at h
    cases hl : lastValid l with
    | some u =>
      rw [hl] at h
      injection h with h
      subst h
      exact List.mem_cons_of_mem x (ih hl)
    | none =>
      rw [hl] at h
      exact h ▸ List.mem_cons_self x l

theorem lastValid_isSome_of_mem (l : List Cell) (v : ℚ) (h : some v ∈ l) :
    (lastValid l).isSome = true := by
  induction l with
  | nil => simp at h
  | cons x l ih =>
    rw [lastValid_cons]
    cases hl : lastValid l with
    | some u => simp
    | none =>
      rcases List.mem_cons.mp h with h1 | h1
      · rw [← h1]
        rfl
      · have h2 := ih h1
        rw [hl] at h2
        simp at h2

theorem foldl_min_le_init (bs : List Nat) (a : Nat) : bs.foldl min a ≤ a := by
  induction bs generalizing a with
  | nil => exact le_refl a
  | cons c bs ih => exact le_trans (ih (min a c)) (min_le_left a c)

theorem foldl_min_le_mem (bs : List Nat) (b : Nat) (h : b ∈ bs) :
    ∀ a, bs.foldl min a ≤ b := by
  induction h with
  | head as =>
    intro a
    exact le_trans (foldl_min_le_init as (min a b)) (min_le_right a b)
  | tail c hmem ih =>
    intro a
    exact ih (min a c)

theorem le_foldl_max_init (bs : List Nat) (a : Nat) : a ≤ bs.foldl max a := by
  induction bs generalizing a with
  | nil => exact le_refl a
  | cons c bs ih => exact le_trans (le_max_left a c) (ih (max a c))

theorem le_foldl_max_mem (bs : List Nat) (b : Nat) (h : b ∈ bs) :
    ∀ a, b ≤ bs.foldl max a := by
  induction h with
  | head as =>
    intro a
    exact le_trans (le_max_right a b) (le_foldl_max_init as (max a b))
  | tail c hmem ih =>
    intro a
    exact ih (max a c)

theorem bucketLo_le (bucket : Nat → Nat) (idx : List Nat) (d : Nat) (h : d ∈ idx) :
    bucketLo bucket idx ≤ bucket d := by
  have hm : bucket d ∈ idx.map bucket := List.mem_map_of_mem bucket h
  cases hmap : idx.map bucket with
  | nil =>
    rw [hmap] at hm
    cases hm
  | cons b bs =>
    rw [hmap] at hm
    unfold bucketLo
    rw [hmap]
    rcases List.mem_cons.mp hm with h1 | h1
    · rw [h1]
      exact foldl_min_le_init bs b
    · exact foldl_min_le_mem bs (bucket d) h1 b

theorem le_bucketHi (bucket : Nat → Nat) (idx : List Nat) (d : Nat) (h : d ∈ idx) :
    bucket d ≤ bucketHi bucket idx := by
  have hm : bucket d ∈ idx.map bucket := List.mem_map_of_mem bucket h
  cases hmap : idx.map bucket with
  | nil =>
    rw [hmap] at hm
    cases hm
  | cons b bs =>
    rw [hmap] at hm
    unfold bucketHi
    rw [hmap]
    rcases List.mem_cons.mp hm with h1 | h1
    · rw [h1]
      exact le_foldl_max_init bs b
    · exact le_foldl_max_mem bs (bucket d) h1 b

theorem resampled_col_any (B : Nat → Nat) (idx : List Nat) (col : List Cell)
    (hwf : col.length = idx.length) :
    ((List.range' (bucketLo B idx) (bucketHi B idx + 1 - bucketLo B idx)).map
      (fun b => lastValid (bucketCells B idx col b))).any (fun x => x.isSome)
    = col.any (fun x => x.isSome) := by
  rw [Bool.eq_iff_iff]
  simp only [List.any_eq_true, List.mem_map]
  constructor
  · rintro ⟨x, ⟨b, hb, hx⟩, hsome⟩
    rw [← hx] at hsome
    obtain ⟨v, hv⟩ := Option.isSome_iff_exists.mp hsome
    have hmem := lastValid_mem _ _ hv
    simp only [bucketCells, List.mem_map, List.mem_filter] at hmem
    obtain ⟨p, ⟨hpz, _⟩, hp2⟩ := hmem
    refine ⟨some v, ?_, rfl⟩
    rw [← hp2]
    exact (List.of_mem_zip hpz).2
  · rintro ⟨x, hx, hsome⟩
    obtain ⟨v, hv⟩ := Option.isSome_iff_exists.mp hsome
    subst hv
    obtain ⟨i, hi, hgi⟩ := List.mem_iff_getElem.mp hx
    have hi2 : i < idx.length := by omega
    have hdm : idx[i] ∈ idx := List.getElem_mem hi2
    have hzip : (idx[i], some v) ∈ idx.zip col := by
      have hlen : i < (idx.zip col).length := by
        rw [List.length_zip]
        omega
      have he : (idx.zip col)[i] = (idx[i], col[i]) := List.getElem_zip
      rw [hgi] at he
      exact he ▸ List.getElem_mem hlen
    refine ⟨lastValid (bucketCells B idx col (B idx[i])), ⟨B idx[i], ?_, rfl⟩, ?_⟩
    · rw [List.mem_range'_1]
      have h1 := bucketLo_le B idx idx[i] hdm
      have h2 := le_bucketHi B idx idx[i] hdm
      omega
    · apply lastValid_isSome_of_mem _ v
      simp only [bucketCells, List.mem_map]
      refine ⟨(idx[i], some v), ?_, rfl⟩
      rw [List.mem_filter]
      exact ⟨hzip, by simp⟩

theorem resampleBy_colpair (B : Nat → Nat) (t : Table) (hne : t.index ≠ [])
    (s : String) (colR : List Cell) :
    (s, colR) ∈ (resampleBy B t).cols ↔
      ∃ col, (s, col) ∈ t.cols ∧
        colR = (List.range' (bucketLo B t.index)
            (bucketHi B t.index + 1 - bucketLo B t.index)).map
          (fun b => lastValid (bucketCells B t.index col b)) := by
  have hemp : t.index.isEmpty = false := by
    cases h : t.index with
    | nil => exact absurd h hne
    | cons a l => rfl
  simp only [resampleBy, hemp, Bool.false_eq_true, if_false, List.mem_map]
  constructor
  · rintro ⟨⟨nm, col⟩, hc, heq⟩
    rw [Prod.mk.injEq] at heq
    obtain ⟨h1, h2⟩ := heq
    subst h1
    exact ⟨col, hc, h2.symm⟩
  · rintro ⟨col, hc, h2⟩
    refine ⟨(s, col), hc, ?_⟩
    rw [Prod.mk.injEq]
    exact ⟨rfl, h2.symm⟩

theorem resampleBy_col_exists_valid (B : Nat → Nat) (t : Table) (hne : t.index ≠ [])
    (hwf : Table.WF t) (s : String) :
    (∃ colR, (s, colR) ∈ (resampleBy B t).cols ∧ colR.any (fun x => x.isSome) = true) ↔
    (∃ col, (s, col) ∈ t.cols ∧ col.any (fun x => x.isSome) = true) := by
  constructor
  · rintro ⟨colR, hmem, hany⟩
    obtain ⟨col, hc, hR⟩ := (resampleBy_colpair B t hne s colR).mp hmem
    refine ⟨col, hc, ?_⟩
    rw [hR] at hany
    rwa [resampled_col_any B t.index col (hwf (s, col) hc)] at hany
  · rintro ⟨col, hc, hany⟩
    refine ⟨_, (resampleBy_colpair B t hne s _).mpr ⟨col, hc, rfl⟩, ?_⟩
    rwa [resampled_col_any B t.index col (hwf (s, col) hc)]

theorem resample_col_exists_valid (fq : Freq) (t : Table) (hne : t.index ≠ [])
    (hwf : Table.WF t) (s : String) :
    (∃ colR, (s, colR) ∈ (resample fq t).cols ∧ colR.any (fun x => x.isSome) = true) ↔
    (∃ col, (s, col) ∈ t.cols ∧ col.any (fun x => x.isSome) = true) := by
  cases fq with
  | daily => exact Iff.rfl
  | weekly => exact resampleBy_col_exists_valid weekBucket t hne hwf s
  | monthly => exact resampleBy_col_exists_valid monthBucket t hne hwf s

theorem colNames_resampleBy (B : Nat → Nat) (t : Table) :
    (resampleBy B t).colNames = t.colNames := by
  by_cases h : t.index.isEmpty
  · simp [resampleBy, h, Table.colNames]
  · simp [resampleBy, h, Table.colNames]

theorem colNames_resample (fq : Freq) (t : Table) :
    (resample fq t).colNames = t.colNames := by
  cases fq with
  | daily => rfl
  | weekly => exact colNames_resampleBy weekBucket t
  | monthly => exact colNames_resampleBy monthBucket t

theorem colNames_normalize (e : Bool) (t : Table) :
    (normalize e t).colNames = t.colNames := by
  cases e with
  | false => rfl
  | true => simp [normalize, Table.colNames]

theorem mem_colNames (t : Table) (s : String) :
    s ∈ t.colNames ↔ ∃ col, (s, col) ∈ t.cols := by
  simp only [Table.colNames, List.mem_map]
  constructor
  · rintro ⟨⟨nm, col⟩, hc, h⟩
    exact ⟨col, h ▸ hc⟩
  · rintro ⟨col, hc⟩
    exact ⟨(s, col), hc, rfl⟩

theorem mem_dropAllMissing_cols (t : Table) (s : String) (col : List Cell) :
    (s, col) ∈ (dropAllMissing t).cols ↔
      (s, col) ∈ t.cols ∧ col.any (fun x => x.isSome) = true := by
  simp [dropAllMissing, List.mem_filter]

theorem colNames_dropAllMissing_subset (t : Table) :
    (dropAllMissing t).colNames ⊆ t.colNames := by
  intro s hs
  obtain ⟨col, hc⟩ := (mem_colNames _ s).mp hs
  exact (mem_colNames t s).mpr ⟨col, ((mem_dropAllMissing_cols t s col).mp hc).1⟩

theorem runPipeline_ok (fetch : List String → Nat → Nat → RawTable) (cfg : Config)
    (tbl : Table) (dropped : List String)
    (h : (runPipeline fetch cfg).outcome = Outcome.ok tbl dropped) :
    tbl = normalize cfg.normalizeOn (resampledTable fetch cfg) ∧
    dropped = cfg.tickers.filter (fun tk => ! decide (tk ∈ tbl.colNames)) ∧
    cfg.tickers ≠ [] ∧
    (fetch cfg.tickers cfg.startDate cfg.endDate).isEmpty = false ∧
    (resampledTable fetch cfg).isEmpty = false := by
  by_cases h1 : cfg.tickers = []
  · simp [runPipeline, h1] at h
  · by_cases h2 : (fetch cfg.tickers cfg.startDate cfg.endDate).isEmpty = true
    · simp [runPipeline, h1, h2] at h
    · by_cases h3 : cfg.priceField ∈ (fetch cfg.tickers cfg.startDate cfg.endDate).fieldNames
      · by_cases h4 : (resampledTable fetch cfg).isEmpty = true
        · simp [runPipeline, h1, h2, h3, h4] at h
        · simp [runPipeline, h1, h2, h3, h4] at h
          obtain ⟨ha, hb⟩ := h
          refine ⟨ha.symm, ?_, h1, by simpa using h2, by simpa using h4⟩
          rw [← ha]
          exact hb.symm
      · simp [runPipeline, h1, h2, h3] at h

/-! ### Claims -/

/-- C1: when normalization is enabled, for each column independently: if
the first non-missing value `v0` exists and is nonzero, every output
entry is the raw entry divided by `v0` times 100 (missing entries stay
missing) and the first valid output entry is exactly 100; if `v0` is
zero or the column has no valid value, the output column is entirely
missing (and the operation is total, so no error arises). -/
theorem c1_normalize_column (col : List Cell) (v0 : ℚ) :
    (firstValid col = some v0 → v0 ≠ 0 →
      normalizeCol col = col.map (Option.map (fun v => v / v0 * 100)) ∧
      firstValid (normalizeCol col) = some 100) ∧
    (firstValid col = some 0 ∨ firstValid col = none →
      normalizeCol col = col.map (fun _ => none)) := by
  constructor
  · intro h0 hne
    have hmap : normalizeCol col = col.map (Option.map (fun v => v / v0 * 100)) := by
      simp [normalizeCol, h0, hne]
    refine ⟨hmap, ?_⟩
    rw [hmap, firstValid_map, h0]
    simp [div_self hne]
  · rintro (h | h) <;> simp [normalizeCol, h]

theorem c1_normalize_column_witness :
    normalizeCol [some (4 : ℚ), none, some 6] = [some 100, none, some 150] ∧
    firstValid (normalizeCol [some (4 : ℚ), none, some 6]) = some 100 := by
  have h := (c1_normalize_column [some (4 : ℚ), none, some 6] 4).1 rfl (by norm_num)
  exact ⟨by rw [h.1]; norm_num, h.2⟩

/-- C7: normalization with the flag disabled is the identity on the
resampled table: same rows, columns and values. -/
theorem c7_normalize_disabled_identity (t : Table) : normalize false t = t := rfl

/-- C9: the two moving-average invocations are independent: enabling MA1
only inserts the MA1 traces, leaving the base traces (the table columns,
unchanged) and the MA2 segment untouched, and symmetrically enabling MA2
only appends the MA2 traces; each segment is a function of the base
table and its own window alone. -/
theorem c9_ma_independent (tbl : Table) (w1 w2 : Nat) (e2 : Bool) :
    chartSeries tbl true w1 e2 w2
        = tbl.cols ++ maTraces tbl w1 ++ (if e2 then maTraces tbl w2 else []) ∧
    chartSeries tbl false w1 e2 w2
        = tbl.cols ++ (if e2 then maTraces tbl w2 else []) ∧
    (∀ e1, chartSeries tbl e1 w1 true w2
        = chartSeries tbl e1 w1 false w2 ++ maTraces tbl w2) := by
  refine ⟨by simp [chartSeries], by simp [chartSeries], ?_⟩
  intro e1
  cases e1 <;> simp [chartSeries]

/-- C2: for a window `w` in `[2, 200]`, the moving-average series has no
value at every row `i < w - 1`; at every row `i ≥ w - 1` whose `w`
trailing cells carry the observations `vs`, it equals their arithmetic
mean (and there are exactly `w` of them). -/
theorem c2_rolling_mean (w : Nat) (hw : 2 ≤ w) (hw2 : w ≤ 200) (col : List Cell)
    (i : Nat) (hi : i < col.length) :
    (i < w - 1 → (rollingMean w col)[i]? = some none) ∧
    (∀ vs : List ℚ, w - 1 ≤ i → (col.take (i + 1)).drop (i + 1 - w) = vs.map some →
      vs.length = w ∧ (rollingMean w col)[i]? = some (some (vs.sum / w))) := by
  have hbody : (rollingMean w col)[i]? = some (
      if i + 1 < w then none
      else
        if ((col.take (i + 1)).drop (i + 1 - w)).all (fun x => x.isSome) then
          some ((((col.take (i + 1)).drop (i + 1 - w)).filterMap id).sum / (w : ℚ))
        else none) := by
    unfold rollingMean
    rw [List.getElem?_map, List.getElem?_range hi]
    rfl
  constructor
  · intro h
    have h1 : i + 1 < w := by omega
    rw [hbody]
    simp [h1]
  · intro vs hle hwin
    have h1 : ¬ i + 1 < w := by omega
    have hlen : vs.length = w := by
      have := congrArg List.length hwin
      rw [List.length_drop, List.length_take] at this
      simp only [List.length_map] at this
      omega
    refine ⟨hlen, ?_⟩
    rw [hbody, hwin]
    simp [h1, hlen]

theorem c2_rolling_mean_witness :
    (rollingMean 2 [some (1 : ℚ), some 3, none])[0]? = some none ∧
    (rollingMean 2 [some (1 : ℚ), some 3, none])[1]? = some (some 2) := by
  have h0 := (c2_rolling_mean 2 (by norm_num) (by norm_num)
    [some (1 : ℚ), some 3, none] 0 (by norm_num)).1 (by norm_num)
  have h1 := ((c2_rolling_mean 2 (by norm_num) (by norm_num)
    [some (1 : ℚ), some 3, none] 1 (by norm_num)).2 [1, 3] (by norm_num) rfl).2
  refine ⟨h0, ?_⟩
  rw [h1]
  norm_num

/-- C3 counterexample: a two-row price table whose rows lie two calendar
weeks apart resamples weekly to three rows — the empty middle week is
kept as a missing row rather than omitted — so the resampled row count
strictly exceeds the input row count. -/
theorem c3_counterexample :
    (resample Freq.weekly
        { index := [0, 14], cols := [("A", [some (1 : ℚ), some 2])] }).index.length = 3 ∧
    (resample Freq.weekly
        { index := [0, 14], cols := [("A", [some (1 : ℚ), some 2])] }).cols
      = [("A", [some (1 : ℚ), none, some 2])] ∧
    ¬ (resample Freq.weekly
        { index := [0, 14], cols := [("A", [some (1 : ℚ), some 2])] }).index.length
      ≤ (Table.mk [0, 14] [("A", [some (1 : ℚ), some 2])]).index.length := by
  have h3 : (resample Freq.weekly
      { index := [0, 14], cols := [("A", [some (1 : ℚ), some 2])] }).index.length = 3 := rfl
  refine ⟨h3, rfl, ?_⟩
  rw [h3]
  decide

/-- C3 amended: weekly and monthly resampling group the rows into
calendar week and month buckets and take the last non-missing value per
column in each bucket, but buckets with no observations are kept, not
omitted: the output has one row for every bucket from the earliest to
the latest bucket hit by the index (a bucket holding no observation
yields a missing cell in every column), so the resampled row count is
`latest bucket - earliest bucket + 1`, which can strictly exceed the
input row count. -/
theorem c3_amended (fq : Freq) (t : Table) (hfq : fq ≠ Freq.daily) (hne : t.index ≠ []) :
    (resample fq t).index.length
        = bucketHi (bucketOf fq) t.index + 1 - bucketLo (bucketOf fq) t.index ∧
    ∀ nm col, (nm, col) ∈ t.cols →
      ∃ rcol, (nm, rcol) ∈ (resample fq t).cols ∧
        rcol.length = (resample fq t).index.length ∧
        ∀ k, k < rcol.length →
          rcol[k]? = some (lastValid (bucketCells (bucketOf fq) t.index col
            (bucketLo (bucketOf fq) t.index + k))) := by
  cases fq with
  | daily => exact absurd rfl hfq
  | weekly => exact resampleBy_spec weekBucket t hne
  | monthly => exact resampleBy_spec monthBucket t hne

theorem c3_amended_witness :
    (resample Freq.weekly
        { index := [0, 14], cols := [("A", [some (1 : ℚ), some 2])] }).index.length = 3 := by
  have h := c3_amended Freq.weekly
    { index := [0, 14], cols := [("A", [some (1 : ℚ), some 2])] } (by decide) (by decide)
  rw [h.1]
  rfl

/-- C4 counterexample: with a nonempty symbol list and a start date not
strictly before the end date, the run does not halt with InvalidConfig
before the fetch: the fetch boundary is invoked once and the run ends in
a different outcome. -/
theorem c4_counterexample :
    cfgLateStart.endDate ≤ cfgLateStart.startDate ∧
    (runPipeline (fetchConst rawSampleA) cfgLateStart).fetchCount = 1 ∧
    (runPipeline (fetchConst rawSampleA) cfgLateStart).outcome ≠ Outcome.invalidConfig := by
  refine ⟨le_refl 5, rfl, ?_⟩
  intro h
  simp [runPipeline, cfgLateStart, fetchConst, rawSampleA, RawTable.isEmpty,
    RawTable.fieldNames, resampledTable, pricedTable, selectField, resample,
    dropAllMissing, Table.isEmpty] at h

/-- C4 amended: an empty symbol list halts the run with InvalidConfig
and its message before the fetch boundary is invoked; a start date not
strictly before the end date only raises the warning flag while the run
proceeds — the fetch is still invoked whenever the symbol list is
nonempty. -/
theorem c4_amended (fetch : List String → Nat → Nat → RawTable) (cfg : Config) :
    (cfg.tickers = [] →
      (runPipeline fetch cfg).outcome = Outcome.invalidConfig ∧
      (runPipeline fetch cfg).fetchCount = 0 ∧
      outcomeMessage (runPipeline fetch cfg).outcome = some msgInvalidConfig) ∧
    (cfg.endDate ≤ cfg.startDate → (runPipeline fetch cfg).dateWarning = true) ∧
    (cfg.tickers ≠ [] → (runPipeline fetch cfg).fetchCount = 1) := by
  refine ⟨?_, ?_, ?_⟩
  · intro h
    simp [runPipeline, h, outcomeMessage]
  · intro h
    simp only [runPipeline]
    split_ifs <;> simp [h]
  · intro h
    simp only [runPipeline]
    split_ifs <;> simp_all

theorem c4_amended_witness :
    (runPipeline (fetchConst rawSampleA) cfgEmpty).outcome = Outcome.invalidConfig ∧
    (runPipeline (fetchConst rawSampleA) cfgEmpty).fetchCount = 0 ∧
    (runPipeline (fetchConst rawSampleA) cfgEmpty).dateWarning = true := by
  have h := c4_amended (fetchConst rawSampleA) cfgEmpty
  exact ⟨(h.1 rfl).1, (h.1 rfl).2.1, h.2.1 (le_refl 5)⟩

/-- C5: when the symbol list is nonempty and the fetch returns an empty
result, the run signals EmptyData with its user-visible message and
invokes the fetch exactly once (no retry); the outcome is EmptyData for
every configuration sharing the same (tickers, start, end) query, so
field selection, resampling and every later stage never run. -/
theorem c5_empty_data (fetch : List String → Nat → Nat → RawTable) (cfg : Config)
    (hne : cfg.tickers ≠ [])
    (hempty : (fetch cfg.tickers cfg.startDate cfg.endDate).isEmpty = true) :
    (runPipeline fetch cfg).outcome = Outcome.emptyData ∧
    outcomeMessage (runPipeline fetch cfg).outcome = some msgEmptyData ∧
    (runPipeline fetch cfg).fetchCount = 1 ∧
    (∀ cfg2 : Config, cfg2.tickers = cfg.tickers → cfg2.startDate = cfg.startDate →
      cfg2.endDate = cfg.endDate →
      (runPipeline fetch cfg2).outcome = Outcome.emptyData) := by
  refine ⟨?_, ?_, ?_, ?_⟩
  · simp [runPipeline, hne, hempty]
  · simp [runPipeline, hne, hempty, outcomeMessage]
  · simp [runPipeline, hne, hempty]
  · intro cfg2 ht hs he
    simp only [runPipeline, ht, hs, he]
    simp [hne, hempty]

theorem c5_empty_data_witness :
    (runPipeline (fetchConst rawEmpty) cfgLateStart).outcome = Outcome.emptyData ∧
    outcomeMessage (runPipeline (fetchConst rawEmpty) cfgLateStart).outcome
      = some msgEmptyData ∧
    (runPipeline (fetchConst rawEmpty) cfgLateStart).fetchCount = 1 := by
  have h := c5_empty_data (fetchConst rawEmpty) cfgLateStart
    (by simp [cfgLateStart]) rfl
  exact ⟨h.1, h.2.1, h.2.2.1⟩

/-- C8: the pipeline is a deterministic pure function of its
configuration and the backing source: two runs against sources that
agree on the queried (tickers, start, end) tuple yield identical
results; in particular two runs with an unchanged source are
bit-identical. -/
theorem c8_deterministic (f g : List String → Nat → Nat → RawTable) (cfg : Config)
    (h : f cfg.tickers cfg.startDate cfg.endDate
      = g cfg.tickers cfg.startDate cfg.endDate) :
    runPipeline f cfg = runPipeline g cfg := by
  unfold runPipeline resampledTable pricedTable
  rw [h]

theorem c8_deterministic_witness :
    runPipeline (fetchConst rawSampleA) cfgLateStart
      = runPipeline (fun _ s _ => if s = 5 then rawSampleA else rawEmpty) cfgLateStart := by
  exact c8_deterministic (fetchConst rawSampleA)
    (fun _ s _ => if s = 5 then rawSampleA else rawEmpty) cfgLateStart rfl

/-- C6: for a run that reaches an output table, assuming the provider
returns under the selected field exactly one column per requested symbol
(with missing cells where a symbol has no data), the column set is a
subset of the requested symbol set after field selection, after
resampling and in the final table, and the final column set is exactly
the requested set minus the symbols whose column holds no observation in
the range. -/
theorem c6_column_subset (fetch : List String → Nat → Nat → RawTable) (cfg : Config)
    (tbl : Table) (dropped : List String)
    (hrun : (runPipeline fetch cfg).outcome = Outcome.ok tbl dropped)
    (hwf : Table.WF (pricedTable fetch cfg))
    (hreq : ∀ s, s ∈ (pricedTable fetch cfg).colNames ↔ s ∈ cfg.tickers) :
    (pricedTable fetch cfg).colNames ⊆ cfg.tickers ∧
    (resample cfg.freq (pricedTable fetch cfg)).colNames ⊆ cfg.tickers ∧
    (resampledTable fetch cfg).colNames ⊆ cfg.tickers ∧
    tbl.colNames ⊆ cfg.tickers ∧
    (∀ s, s ∈ tbl.colNames ↔ s ∈ cfg.tickers ∧
      ∃ col, (s, col) ∈ (pricedTable fetch cfg).cols ∧
        col.any (fun x => x.isSome) = true) := by
  obtain ⟨htbl, hdrop, hne, hraw, hresne⟩ := runPipeline_ok fetch cfg tbl dropped hrun
  have hidx : (pricedTable fetch cfg).index ≠ [] := by
    simp only [RawTable.isEmpty, Bool.or_eq_false_iff] at hraw
    have := hraw.1
    intro hcontra
    rw [show (fetch cfg.tickers cfg.startDate cfg.endDate).index
        = (pricedTable fetch cfg).index from rfl, hcontra] at this
    simp at this
  have sub1 : (pricedTable fetch cfg).colNames ⊆ cfg.tickers :=
    fun s hs => (hreq s).mp hs
  have sub2 : (resample cfg.freq (pricedTable fetch cfg)).colNames ⊆ cfg.tickers := by
    rw [colNames_resample]
    exact sub1
  have sub3 : (resampledTable fetch cfg).colNames ⊆ cfg.tickers := by
    intro s hs
    exact sub2 (colNames_dropAllMissing_subset _ hs)
  have sub4 : tbl.colNames ⊆ cfg.tickers := by
    rw [htbl, colNames_normalize]
    exact sub3
  refine ⟨sub1, sub2, sub3, sub4, ?_⟩
  intro s
  rw [htbl, colNames_normalize, mem_colNames]
  constructor
  · rintro ⟨colR, hcolR⟩
    have h5 := (mem_dropAllMissing_cols _ s colR).mp hcolR
    obtain ⟨col, hc, hany⟩ :=
      (resample_col_exists_valid cfg.freq (pricedTable fetch cfg) hidx hwf s).mp
        ⟨colR, h5.1, h5.2⟩
    refine ⟨(hreq s).mp ?_, col, hc, hany⟩
    exact (mem_colNames _ s).mpr ⟨col, hc⟩
  · rintro ⟨hst, col, hc, hany⟩
    obtain ⟨colR, hcR, hanyR⟩ :=
      (resample_col_exists_valid cfg.freq (pricedTable fetch cfg) hidx hwf s).mpr
        ⟨col, hc, hany⟩
    exact ⟨colR, (mem_dropAllMissing_cols _ s colR).mpr ⟨hcR, hanyR⟩⟩

theorem c6_column_subset_witness :
    (Table.mk [0] [("A", [some (1 : ℚ)])]).colNames ⊆ ["A", "B"] ∧
    ("A" ∈ (Table.mk [0] [("A", [some (1 : ℚ)])]).colNames ↔
      "A" ∈ ["A", "B"] ∧
      ∃ col, ("A", col) ∈ (pricedTable (fetchConst rawTwoCols) cfgTwoCols).cols ∧
        col.any (fun x => x.isSome) = true) ∧
    ("B" ∈ (Table.mk [0] [("A", [some (1 : ℚ)])]).colNames ↔
      "B" ∈ ["A", "B"] ∧
      ∃ col, ("B", col) ∈ (pricedTable (fetchConst rawTwoCols) cfgTwoCols).cols ∧
        col.any (fun x => x.isSome) = true) := by
  have h := c6_column_subset (fetchConst rawTwoCols) cfgTwoCols
    (Table.mk [0] [("A", [some (1 : ℚ)])]) ["B"] rfl
    (by
      intro c hc
      rcases List.mem_cons.mp hc with h1 | h1
      · rw [h1]
        rfl
      · rcases List.mem_cons.mp h1 with h2 | h2
        · rw [h2]
          rfl
        · cases h2)
    (by
      intro s
      rw [show (pricedTable (fetchConst rawTwoCols) cfgTwoCols).colNames
          = ["A", "B"] from rfl]
      exact Iff.rfl)
  exact ⟨h.2.2.2.1, h.2.2.2.2 "A", h.2.2.2.2 "B"⟩

/-- C10: when normalization is enabled and a column of the resampled
table has a zero first valid value, that column remains present in the
final table as an entirely missing column, so the symbol is not listed
in the dropped-symbols warning. -/
theorem c10_zero_column_kept (fetch : List String → Nat → Nat → RawTable) (cfg : Config)
    (tbl : Table) (dropped : List String) (s : String) (col : List Cell)
    (hnorm : cfg.normalizeOn = true)
    (hrun : (runPipeline fetch cfg).outcome = Outcome.ok tbl dropped)
    (hcol : (s, col) ∈ (resampledTable fetch cfg).cols)
    (hzero : firstValid col = some 0) :
    (s, col.map (fun _ => none)) ∈ tbl.cols ∧
    s ∈ tbl.colNames ∧
    s ∉ dropped := by
  obtain ⟨htbl, hdrop, hne, hraw, hresne⟩ := runPipeline_ok fetch cfg tbl dropped hrun
  have hnc : normalizeCol col = col.map (fun _ => none) := by
    simp [normalizeCol, hzero]
  have hmem : (s, col.map (fun _ => none)) ∈ tbl.cols := by
    rw [htbl, hnorm]
    simp only [normalize, if_true]
    rw [← hnc]
    exact List.mem_map_of_mem (fun c => (c.1, normalizeCol c.2)) hcol
  have hname : s ∈ tbl.colNames := (mem_colNames tbl s).mpr ⟨_, hmem⟩
  refine ⟨hmem, hname, ?_⟩
  rw [hdrop]
  simp [List.mem_filter, hname]

theorem c10_zero_column_kept_witness :
    ("A", [(none : Cell), none]) ∈ tblNormExample.cols ∧
    "A" ∈ tblNormExample.colNames ∧
    "A" ∉ droppedNormExample := by
  have h := c10_zero_column_kept (fetchConst rawZeroFirst) cfgNormalize
    tblNormExample droppedNormExample "A" [some 0, some 5] rfl rfl
    (by
      rw [show (resampledTable (fetchConst rawZeroFirst) cfgNormalize).cols
          = [("A", [some 0, some 5]), ("B", [some 1, some 2])] from rfl]
      exact List.mem_cons_self _ _)
    rfl
  exact h

end StockDash
